import Mathlib

/-!
Shallow embedding of the bias-goblin TE/PE address-translation core.

Machine integers are modelled as `Nat` with explicit reduction modulo
`2^32` (u32) or `2^64` (usize, 64-bit target).  Rust `wrapping_add` /
`wrapping_sub` become `wadd32/wsub32/wadd64/wsub64`; Rust bitwise NOT on
usize (`!m`) becomes XOR against the all-ones word `U64 - 1`.  Plain
(panicking-on-overflow) Rust arithmetic is modelled twice: once by the
release/wrapping value semantics (`section_read_size` etc.) and once by a
checked semantics returning `none` where Rust debug overflow checks would
abort (`section_read_sizeC` etc.).

Buffers are `List Nat` whose entries are bytes (`< 256`); the `scroll`
cursor becomes explicit `(value, next-offset)` reads in `Option`.
-/

namespace BiasGoblin

def U32 : Nat := 2 ^ 32

def U64 : Nat := 2 ^ 64

/-- Rust `u32` wrapping addition. -/
def wadd32 (a b : Nat) : Nat := (a % U32 + b % U32) % U32

/-- Rust `u32` wrapping subtraction. -/
def wsub32 (a b : Nat) : Nat := (a % U32 + U32 - b % U32) % U32

/-- Rust `usize` (64-bit) wrapping addition. -/
def wadd64 (a b : Nat) : Nat := (a % U64 + b % U64) % U64

/-- Rust `usize` (64-bit) wrapping subtraction. -/
def wsub64 (a b : Nat) : Nat := (a % U64 + U64 - b % U64) % U64

/-- Rust bitwise NOT on a 64-bit `usize` word. -/
def not64 (m : Nat) : Nat := m ^^^ (U64 - 1)

lemma wadd64_eq (a b : Nat) (ha : a < U64) (hb : a + b < U64) :
    wadd64 a b = a + b := by
  unfold wadd64
  rw [Nat.mod_eq_of_lt ha, Nat.mod_eq_of_lt (show b < U64 by omega),
    Nat.mod_eq_of_lt hb]

lemma wsub64_eq (a b : Nat) (ha : a < U64) (hb : b ≤ a) :
    wsub64 a b = a - b := by
  unfold wsub64
  rw [Nat.mod_eq_of_lt ha, Nat.mod_eq_of_lt (show b < U64 by omega)]
  have h1 : a + U64 - b = (a - b) + U64 := by omega
  rw [h1, Nat.add_mod_right, Nat.mod_eq_of_lt (by omega)]

lemma wadd32_eq (a b : Nat) (ha : a < U32) (hb : a + b < U32) :
    wadd32 a b = a + b := by
  unfold wadd32
  rw [Nat.mod_eq_of_lt ha, Nat.mod_eq_of_lt (show b < U32 by omega),
    Nat.mod_eq_of_lt hb]

lemma wadd64_lt (a b : Nat) : wadd64 a b < U64 := by
  unfold wadd64 U64
  exact Nat.mod_lt _ (by norm_num)

lemma wsub64_lt (a b : Nat) : wsub64 a b < U64 := by
  unfold wsub64 U64
  exact Nat.mod_lt _ (by norm_num)

/-- If two numbers share no set bits, their sum is their bitwise OR. -/
lemma add_eq_or_of_and_eq_zero : ∀ p q : Nat, p &&& q = 0 → p + q = p ||| q := by
  intro p
  induction p using Nat.strong_induction_on with
  | _ p ih =>
    intro q h
    match p, h with
    | 0, _ => simp
    | p + 1, h =>
      have hdiv : (p + 1) / 2 &&& q / 2 = 0 := by
        rw [← Nat.and_div_two, h]
      have hmod : ¬((p + 1) % 2 = 1 ∧ q % 2 = 1) := by
        intro hc
        have := Nat.and_mod_two_eq_one.mpr hc
        rw [h] at this
        omega
      have hlt : (p + 1) / 2 < p + 1 := Nat.div_lt_self (by omega) (by omega)
      have hih := ih ((p + 1) / 2) hlt (q / 2) hdiv
      have hor2 : (((p + 1) ||| q) % 2 = 1) ↔ ((p + 1) % 2 = 1 ∨ q % 2 = 1) :=
        Nat.or_mod_two_eq_one
      have hordiv : ((p + 1) ||| q) / 2 = (p + 1) / 2 ||| q / 2 := Nat.or_div_two
      have e1 := Nat.div_add_mod (p + 1) 2
      have e2 := Nat.div_add_mod q 2
      have e3 := Nat.div_add_mod ((p + 1) ||| q) 2
      have hp2 : (p + 1) % 2 < 2 := Nat.mod_lt _ (by omega)
      have hq2 : q % 2 < 2 := Nat.mod_lt _ (by omega)
      have ho2 : ((p + 1) ||| q) % 2 < 2 := Nat.mod_lt _ (by omega)
      omega

lemma or_not64 (m : Nat) (hm : m < U64) : m ||| not64 m = U64 - 1 := by
  unfold not64 U64 at *
  apply Nat.eq_of_testBit_eq
  intro i
  simp only [Nat.testBit_or, Nat.testBit_xor, Nat.testBit_two_pow_sub_one]
  by_cases hi : i < 64
  · cases m.testBit i <;> simp [hi]
  · have hb : m.testBit i = false := by
      apply Nat.testBit_lt_two_pow
      calc m < 2 ^ 64 := hm
        _ ≤ 2 ^ i := Nat.pow_le_pow_right (by omega) (by omega)
    simp [hi, hb]

lemma and_not64_disjoint (x m : Nat) (hm : m < U64) :
    (x &&& not64 m) &&& (x &&& m) = 0 := by
  unfold not64 U64 at *
  apply Nat.eq_of_testBit_eq
  intro i
  simp only [Nat.testBit_and, Nat.testBit_xor, Nat.testBit_two_pow_sub_one,
    Nat.zero_testBit]
  by_cases hi : i < 64
  · cases m.testBit i <;> cases x.testBit i <;> simp [hi]
  · have hb : m.testBit i = false := by
      apply Nat.testBit_lt_two_pow
      calc m < 2 ^ 64 := hm
        _ ≤ 2 ^ i := Nat.pow_le_pow_right (by omega) (by omega)
    simp [hb]

/-- Splitting a 64-bit word by a mask and its complement recovers the word. -/
lemma and_not64_add_and (x m : Nat) (hx : x < U64) (hm : m < U64) :
    (x &&& not64 m) + (x &&& m) = x := by
  rw [add_eq_or_of_and_eq_zero _ _ (and_not64_disjoint x m hm),
    ← Nat.and_or_distrib_left, Nat.or_comm, or_not64 m hm]
  show x &&& (U64 - 1) = x
  unfold U64
  rw [Nat.and_pow_two_sub_one_eq_mod]
  exact Nat.mod_eq_of_lt hx

lemma sub_le_and_not64 (x m : Nat) (hx : x < U64) (hm : m < U64) :
    x - m ≤ x &&& not64 m := by
  have h1 := and_not64_add_and x m hx hm
  have h2 : x &&& m ≤ m := Nat.and_le_right
  omega

lemma and_not64_le (x m : Nat) : x &&& not64 m ≤ x := Nat.and_le_left

/-- Clearing the low `k` bits of a 64-bit word rounds it down to `2^k`. -/
lemma and_not64_two_pow_sub_one (x k : Nat) (hx : x < U64) (hk : k ≤ 64) :
    x &&& not64 (2 ^ k - 1) = x - x % 2 ^ k := by
  have hm : 2 ^ k - 1 < U64 := by
    unfold U64
    have : 2 ^ k ≤ 2 ^ 64 := Nat.pow_le_pow_right (by omega) hk
    have : 1 ≤ 2 ^ k := Nat.one_le_two_pow
    omega
  have h1 := and_not64_add_and x (2 ^ k - 1) hx hm
  rw [Nat.and_pow_two_sub_one_eq_mod] at h1
  have h2 : x % 2 ^ k ≤ x := Nat.mod_le _ _
  omega

/-! ### Byte-buffer primitives (the scroll cursor)

`rdLE n bs off` models `bytes.gread_with::<uintN>(offset, LE)`: it yields the
little-endian value of the `n` bytes at `off` together with the advanced
offset, or `none` when the read overruns the buffer.  `rdBytes` models
`gread_with::<&[u8]>(offset, n)`. -/

/-- Value of a little-endian byte string. -/
def leVal : List Nat → Nat
  | [] => 0
  | b :: rest => b + 256 * leVal rest

/-- The `n` little-endian bytes of `v` (as written by `gwrite_with(..., LE)`). -/
def leBytes : Nat → Nat → List Nat
  | 0, _ => []
  | n + 1, v => v % 256 :: leBytes n (v / 256)

/-- A buffer whose entries are actual byte values. -/
abbrev WFBytes (bs : List Nat) : Prop := ∀ b ∈ bs, b < 256

def rdLE (n : Nat) (bs : List Nat) (off : Nat) : Option (Nat × Nat) :=
  if off + n ≤ bs.length then some (leVal ((bs.drop off).take n), off + n) else none

def rdBytes (n : Nat) (bs : List Nat) (off : Nat) : Option (List Nat × Nat) :=
  if off + n ≤ bs.length then some ((bs.drop off).take n, off + n) else none

/-! ### Section geometry and the address resolver (src/pe/utils.rs)

`GSec` is the view a `PESectionTable` implementor presents to the resolver:
the four accessor values the resolver reads.  For a TE section the
`pointer_to_raw_data` entry is the rebased accessor value.

The resolver functions are embedded twice.  The plain versions give the
release/wrapping value semantics (every Rust `+`/`-` reduced mod `2^64`,
`wrapping_add`/`wrapping_sub` likewise).  The `...C` versions give the
checked semantics: they return `none` exactly where a Rust overflow check
would abort on a plain `+`/`-`, and keep the wrapping operators wrapping. -/

structure GSec where
  virtual_size : Nat
  virtual_address : Nat
  size_of_raw_data : Nat
  pointer_to_raw_data : Nat
deriving DecidableEq

/-- Accessor values of a section, as produced from u32 fields. -/
abbrev WFSec (s : GSec) : Prop :=
  s.virtual_size < U32 ∧ s.virtual_address < U32 ∧
  s.size_of_raw_data < U32 ∧ s.pointer_to_raw_data < U32

/-- `pointer_to_raw_data & !0x1ff` (src/pe/utils.rs, aligned_pointer_to_raw_data). -/
def aligned_pointer_to_raw_data (p : Nat) : Nat := p % U64 &&& not64 0x1ff

/-- `(size + PAGE_MASK) & !PAGE_MASK` with `PAGE_MASK = 0xfff` (round_size). -/
def round_size (size : Nat) : Nat := wadd64 size 0xfff &&& not64 0xfff

/-- src/pe/utils.rs section_read_size, wrapping value semantics. -/
def section_read_size (s : GSec) (file_alignment : Nat) : Nat :=
  let x := wsub64 (wadd64 (wadd64 s.pointer_to_raw_data s.size_of_raw_data)
    file_alignment) 1
  let masked := x &&& not64 (wsub64 file_alignment 1)
  let read_size :=
    min (wsub64 masked (aligned_pointer_to_raw_data s.pointer_to_raw_data))
      (round_size s.size_of_raw_data)
  if s.virtual_size = 0 then read_size
  else min read_size (round_size s.virtual_size)

/-- src/pe/utils.rs is_in_range. -/
def is_in_range (rva r1 r2 : Nat) : Bool := decide (r1 ≤ rva) && decide (rva < r2)

/-- src/pe/utils.rs is_in_section, wrapping value semantics. -/
def is_in_section (rva : Nat) (s : GSec) (file_alignment : Nat) : Bool :=
  is_in_range rva s.virtual_address
    (wadd64 s.virtual_address (section_read_size s file_alignment))

/-- src/pe/utils.rs rva2offset (plain ops, wrapping value semantics). -/
def rva2offset (rva : Nat) (s : GSec) : Nat :=
  wadd64 (wsub64 rva s.virtual_address)
    (aligned_pointer_to_raw_data s.pointer_to_raw_data)

/-- src/pe/utils.rs find_raw_offset; the returned offset uses
`wrapping_add`/`wrapping_sub` in the source. -/
def find_raw_offset (rva : Nat) (sections : List GSec) (file_alignment : Nat) :
    Option Nat :=
  match sections with
  | [] => none
  | s :: rest =>
    if is_in_section rva s file_alignment then
      some (wadd64 s.pointer_to_raw_data (wsub64 rva s.virtual_address))
    else find_raw_offset rva rest file_alignment

/-- The section scan inside src/pe/utils.rs find_offset (the
`opts.resolve_rva` branch). -/
def find_offset_loop (rva : Nat) (sections : List GSec) (file_alignment : Nat) :
    Option Nat :=
  match sections with
  | [] => none
  | s :: rest =>
    if is_in_section rva s file_alignment then some (rva2offset rva s)
    else find_offset_loop rva rest file_alignment

/-- src/pe/utils.rs find_offset; `resolve_rva` is the field of
`options::ParseOptions` consulted by the source. -/
def find_offset (rva : Nat) (sections : List GSec) (file_alignment : Nat)
    (resolve_rva : Bool) : Option Nat :=
  if resolve_rva then find_offset_loop rva sections file_alignment
  else some rva

/-! Checked (abort-tracking) semantics of the same functions. -/

/-- Plain Rust `+` on usize: `none` models the overflow abort. -/
def cAdd64 (a b : Nat) : Option Nat :=
  if a + b < U64 then some (a + b) else none

/-- Plain Rust `-` on usize: `none` models the underflow abort. -/
def cSub (a b : Nat) : Option Nat :=
  if b ≤ a then some (a - b) else none

def round_sizeC (size : Nat) : Option Nat :=
  (cAdd64 size 0xfff).map (fun x => x &&& not64 0xfff)

def section_read_sizeC (s : GSec) (file_alignment : Nat) : Option Nat := do
  let x1 ← cAdd64 s.pointer_to_raw_data s.size_of_raw_data
  let x2 ← cAdd64 x1 file_alignment
  let x3 ← cSub x2 1
  let m ← cSub file_alignment 1
  let r0 ← cSub (x3 &&& not64 m)
    (aligned_pointer_to_raw_data s.pointer_to_raw_data)
  let rs ← round_sizeC s.size_of_raw_data
  let read_size := min r0 rs
  if s.virtual_size = 0 then pure read_size
  else do
    let rv ← round_sizeC s.virtual_size
    pure (min read_size rv)

def is_in_sectionC (rva : Nat) (s : GSec) (file_alignment : Nat) :
    Option Bool := do
  let rs ← section_read_sizeC s file_alignment
  let upper ← cAdd64 s.virtual_address rs
  pure (is_in_range rva s.virtual_address upper)

def find_raw_offsetC (rva : Nat) (sections : List GSec) (file_alignment : Nat) :
    Option (Option Nat) :=
  match sections with
  | [] => some none
  | s :: rest => do
    let b ← is_in_sectionC rva s file_alignment
    if b then
      pure (some (wadd64 s.pointer_to_raw_data (wsub64 rva s.virtual_address)))
    else find_raw_offsetC rva rest file_alignment

def rva2offsetC (rva : Nat) (s : GSec) : Option Nat := do
  let d ← cSub rva s.virtual_address
  cAdd64 d (aligned_pointer_to_raw_data s.pointer_to_raw_data)

def find_offset_loopC (rva : Nat) (sections : List GSec) (file_alignment : Nat) :
    Option (Option Nat) :=
  match sections with
  | [] => some none
  | s :: rest => do
    let b ← is_in_sectionC rva s file_alignment
    if b then do
      let o ← rva2offsetC rva s
      pure (some o)
    else find_offset_loopC rva rest file_alignment

def find_offsetC (rva : Nat) (sections : List GSec) (file_alignment : Nat)
    (resolve_rva : Bool) : Option (Option Nat) :=
  if resolve_rva then find_offset_loopC rva sections file_alignment
  else some (some rva)

/-! ### Data directories (src/te/data_directories.rs) -/

structure DataDirectory where
  virtual_address : Nat
  size : Nat
deriving DecidableEq

structure DataDirectories where
  base_relocation : Option DataDirectory
  debug : Option DataDirectory
deriving DecidableEq

/-- src/te/data_directories.rs parse_single: an all-zero pair decodes to
`none`. -/
def DataDirectories.parse_single (bs : List Nat) (off : Nat) :
    Option (Option DataDirectory × Nat) := do
  let (va, o1) ← rdLE 4 bs off
  let (sz, o2) ← rdLE 4 bs o1
  if va = 0 ∧ sz = 0 then pure (none, o2) else pure (some ⟨va, sz⟩, o2)

/-- src/te/data_directories.rs parse / try_from_ctx. -/
def DataDirectories.parse (bs : List Nat) (off : Nat) :
    Option (DataDirectories × Nat) := do
  let (br, o1) ← DataDirectories.parse_single bs off
  let (dbg, o2) ← DataDirectories.parse_single bs o1
  pure (⟨br, dbg⟩, o2)

/-- src/te/data_directories.rs try_into_ctx: an absent slot is written as
the default `(0,0)` pair. -/
def DataDirectories.try_into_ctx (dds : DataDirectories) : List Nat :=
  (leBytes 4 (dds.base_relocation.getD ⟨0, 0⟩).virtual_address ++
    leBytes 4 (dds.base_relocation.getD ⟨0, 0⟩).size) ++
  (leBytes 4 (dds.debug.getD ⟨0, 0⟩).virtual_address ++
    leBytes 4 (dds.debug.getD ⟨0, 0⟩).size)

/-! ### TE header (src/te/header.rs) -/

def TE_MAGIC : Nat := 0x5a56

def SIZEOF_TE_HEADER : Nat := 40

structure Header where
  signature : Nat
  machine : Nat
  number_of_sections : Nat
  subsystem : Nat
  stripped_size : Nat
  address_of_entry_point : Nat
  base_of_code : Nat
  image_base : Nat
  data_directories : DataDirectories
deriving DecidableEq

inductive PError where
  | malformed
  | scroll
deriving DecidableEq

/-- The derived `Pread` impl of `Header`: sequential LE reads of every
field at offset 0. -/
def readHeader (bs : List Nat) : Option Header := do
  let (sig, o1) ← rdLE 2 bs 0
  let (mach, o2) ← rdLE 2 bs o1
  let (nsec, o3) ← rdLE 1 bs o2
  let (subs, o4) ← rdLE 1 bs o3
  let (ss, o5) ← rdLE 2 bs o4
  let (ep, o6) ← rdLE 4 bs o5
  let (bc, o7) ← rdLE 4 bs o6
  let (ib, o8) ← rdLE 8 bs o7
  let (dds, _) ← DataDirectories.parse bs o8
  pure ⟨sig, mach, nsec, subs, ss, ep, bc, ib, dds⟩

/-- src/te/header.rs Header::parse: read the header, then reject any
signature other than `TE_MAGIC`. -/
def Header.parse (bs : List Nat) : Except PError Header :=
  match readHeader bs with
  | none => .error .scroll
  | some h => if h.signature ≠ TE_MAGIC then .error .malformed else .ok h

/-- src/te/header.rs try_into_ctx: the 40 bytes written for a header. -/
def Header.try_into_ctx (h : Header) : List Nat :=
  leBytes 2 h.signature ++ leBytes 2 h.machine ++
  leBytes 1 h.number_of_sections ++ leBytes 1 h.subsystem ++
  leBytes 2 h.stripped_size ++ leBytes 4 h.address_of_entry_point ++
  leBytes 4 h.base_of_code ++ leBytes 8 h.image_base ++
  h.data_directories.try_into_ctx

/-! ### TE section table (src/te/section_table.rs) -/

structure SectionTable where
  name : List Nat
  virtual_size : Nat
  virtual_address : Nat
  size_of_raw_data : Nat
  pointer_to_raw_data : Nat
  pointer_to_relocations : Nat
  pointer_to_linenumbers : Nat
  number_of_relocations : Nat
  number_of_linenumbers : Nat
  characteristics : Nat
  stripped_size : Nat
deriving DecidableEq

/-- src/te/section_table.rs SectionTable::parse: 40 on-disk bytes plus the
carried (not serialized) `stripped_size`. -/
def SectionTable.parse (bs : List Nat) (off : Nat) (stripped_size : Nat) :
    Option (SectionTable × Nat) := do
  let (nm, o1) ← rdBytes 8 bs off
  let (vsz, o2) ← rdLE 4 bs o1
  let (va, o3) ← rdLE 4 bs o2
  let (srd, o4) ← rdLE 4 bs o3
  let (prd, o5) ← rdLE 4 bs o4
  let (prel, o6) ← rdLE 4 bs o5
  let (plin, o7) ← rdLE 4 bs o6
  let (nrel, o8) ← rdLE 2 bs o7
  let (nlin, o9) ← rdLE 2 bs o8
  let (chars, o10) ← rdLE 4 bs o9
  pure (⟨nm, vsz, va, srd, prd, prel, plin, nrel, nlin, chars, stripped_size⟩,
    o10)

/-- src/te/section_table.rs try_into_ctx: name bytes verbatim, then the
nine on-disk fields; `stripped_size` is not serialized. -/
def SectionTable.try_into_ctx (s : SectionTable) : List Nat :=
  s.name ++ leBytes 4 s.virtual_size ++ leBytes 4 s.virtual_address ++
  leBytes 4 s.size_of_raw_data ++ leBytes 4 s.pointer_to_raw_data ++
  leBytes 4 s.pointer_to_relocations ++ leBytes 4 s.pointer_to_linenumbers ++
  leBytes 2 s.number_of_relocations ++ leBytes 2 s.number_of_linenumbers ++
  leBytes 4 s.characteristics

/-- Trait accessor `pointer_to_raw_data()` of `PESectionTable for
SectionTable`: `stored.wrapping_sub(stripped_size).wrapping_add(40)` on u32. -/
def SectionTable.rebased_pointer_to_raw_data (s : SectionTable) : Nat :=
  wadd32 (wsub32 s.pointer_to_raw_data s.stripped_size) SIZEOF_TE_HEADER

/-- Trait accessor `pointer_to_relocations()`. -/
def SectionTable.rebased_pointer_to_relocations (s : SectionTable) : Nat :=
  wadd32 (wsub32 s.pointer_to_relocations s.stripped_size) SIZEOF_TE_HEADER

/-- Trait accessor `pointer_to_linenumbers()`. -/
def SectionTable.rebased_pointer_to_linenumbers (s : SectionTable) : Nat :=
  wadd32 (wsub32 s.pointer_to_linenumbers s.stripped_size) SIZEOF_TE_HEADER

/-! ### TE image (src/te/mod.rs) -/

structure TE where
  header : Header
  sections : List SectionTable
deriving DecidableEq

/-- src/te/mod.rs TE::adjust_offset:
`offset.wrapping_sub(stripped_size).wrapping_add(SIZEOF_TE_HEADER)` on usize. -/
def TE.adjust_offset (te : TE) (offset : Nat) : Nat :=
  wadd64 (wsub64 offset te.header.stripped_size) SIZEOF_TE_HEADER

/-- The rebase applied in src/te/mod.rs TE::parse to the debug directory's
`pointer_to_raw_data` (a u32) before decoding the CodeView record. -/
def debug_rebased_pointer (h : Header) (pointer_to_raw_data : Nat) : Nat :=
  wadd32 (wsub32 pointer_to_raw_data h.stripped_size) SIZEOF_TE_HEADER

/-! ### Certificates (src/pe/certs.rs) -/

structure WinCertificateHeader where
  dw_length : Nat
  w_revision : Nat
  w_certificate_type : Nat
deriving DecidableEq

structure WinCertificate where
  header : WinCertificateHeader
  bytes : List Nat
deriving DecidableEq

/-- src/pe/certs.rs WinCertificate::try_from_ctx: 8-byte header, reject
`dw_length` below the header size, then `dw_length - 8` payload bytes and
`dw_length % 8` pad bytes; returns the record and the consumed length. -/
def WinCertificate.try_from_ctx (src : List Nat) :
    Except PError (WinCertificate × Nat) :=
  match rdLE 4 src 0 with
  | none => .error .scroll
  | some (dwl, o1) =>
    match rdLE 2 src o1 with
    | none => .error .scroll
    | some (rev, o2) =>
      match rdLE 2 src o2 with
      | none => .error .scroll
      | some (typ, o3) =>
        if dwl < o3 then .error .malformed
        else
          match rdBytes (dwl - o3) src o3 with
          | none => .error .scroll
          | some (payload, o4) =>
            match rdBytes (dwl % 8) src o4 with
            | none => .error .scroll
            | some (_, o5) => .ok (⟨⟨dwl, rev, typ⟩, payload⟩, o5)

/-- src/pe/certs.rs WinCertificates: buffer plus private forward cursor. -/
structure WinCertificates where
  offset : Nat
  bytes : List Nat
deriving DecidableEq

/-- The `Iterator::next` impl: a successful decode at the cursor advances
it and yields the record; any decode error yields `none` and leaves the
cursor where it was (`gread_with` does not advance on failure). -/
def WinCertificates.next (it : WinCertificates) :
    Option WinCertificate × WinCertificates :=
  match WinCertificate.try_from_ctx (it.bytes.drop it.offset) with
  | .ok (c, sz) => (some c, ⟨it.offset + sz, it.bytes⟩)
  | .error _ => (none, it)

/-! ### Byte-level helper lemmas -/

lemma leVal_cons (b : Nat) (l : List Nat) : leVal (b :: l) = b + 256 * leVal l :=
  rfl

lemma leBytes_leVal : ∀ l : List Nat, (∀ b ∈ l, b < 256) →
    leBytes l.length (leVal l) = l := by
  intro l
  induction l with
  | nil => intro _; rfl
  | cons b rest ih =>
    intro h
    have hb : b < 256 := h b (List.mem_cons_self b rest)
    have h1 : (b + 256 * leVal rest) % 256 = b := by omega
    have h2 : (b + 256 * leVal rest) / 256 = leVal rest := by omega
    simp only [List.length_cons, leBytes, leVal_cons, h1, h2]
    rw [ih (fun x hx => h x (List.mem_cons_of_mem b hx))]

lemma rdLE_eq (n : Nat) (bs : List Nat) (off : Nat) (h : off + n ≤ bs.length) :
    rdLE n bs off = some (leVal ((bs.drop off).take n), off + n) := by
  simp [rdLE, h]

lemma rdBytes_eq (n : Nat) (bs : List Nat) (off : Nat)
    (h : off + n ≤ bs.length) :
    rdBytes n bs off = some ((bs.drop off).take n, off + n) := by
  simp [rdBytes, h]

lemma take_two_of_le (bs : List Nat) (h : 2 ≤ bs.length) :
    ∃ b0 b1, bs.take 2 = [b0, b1] ∧ b0 ∈ bs ∧ b1 ∈ bs := by
  match bs, h with
  | b0 :: b1 :: rest, _ =>
    exact ⟨b0, b1, rfl, by simp, by simp⟩

/-- Decoded alternatives of a data-directory pair. -/
def ddOf (va sz : Nat) : Option DataDirectory :=
  if va = 0 ∧ sz = 0 then none else some ⟨va, sz⟩

lemma parse_single_eq (bs : List Nat) (off : Nat) (h : off + 8 ≤ bs.length) :
    DataDirectories.parse_single bs off =
      some (ddOf (leVal ((bs.drop off).take 4))
        (leVal ((bs.drop (off + 4)).take 4)), off + 8) := by
  have h1 := rdLE_eq 4 bs off (by omega)
  have h2 := rdLE_eq 4 bs (off + 4) (by omega)
  have ho : off + 4 + 4 = off + 8 := by omega
  simp only [DataDirectories.parse_single, h1, h2, Option.bind_eq_bind,
    Option.some_bind, ho]
  unfold ddOf
  split <;> simp [pure]

lemma parse_dds_eq (bs : List Nat) (off : Nat) (h : off + 16 ≤ bs.length) :
    DataDirectories.parse bs off =
      some (⟨ddOf (leVal ((bs.drop off).take 4))
        (leVal ((bs.drop (off + 4)).take 4)),
        ddOf (leVal ((bs.drop (off + 8)).take 4))
        (leVal ((bs.drop (off + 12)).take 4))⟩, off + 16) := by
  have h1 := parse_single_eq bs off (by omega)
  have h2 := parse_single_eq bs (off + 8) (by omega)
  have ha : off + 8 + 4 = off + 12 := by omega
  have hb : off + 8 + 8 = off + 16 := by omega
  simp only [DataDirectories.parse, h1, h2, ha, hb, Option.bind_eq_bind,
    Option.some_bind]
  simp [pure]

/-- The header value decoded from a 40-byte buffer prefix. -/
def headerOf (bs : List Nat) : Header :=
  { signature := leVal (bs.take 2)
    machine := leVal ((bs.drop 2).take 2)
    number_of_sections := leVal ((bs.drop 4).take 1)
    subsystem := leVal ((bs.drop 5).take 1)
    stripped_size := leVal ((bs.drop 6).take 2)
    address_of_entry_point := leVal ((bs.drop 8).take 4)
    base_of_code := leVal ((bs.drop 12).take 4)
    image_base := leVal ((bs.drop 16).take 8)
    data_directories :=
      ⟨ddOf (leVal ((bs.drop 24).take 4)) (leVal ((bs.drop 28).take 4)),
        ddOf (leVal ((bs.drop 32).take 4)) (leVal ((bs.drop 36).take 4))⟩ }

lemma readHeader_eq (bs : List Nat) (h : 40 ≤ bs.length) :
    readHeader bs = some (headerOf bs) := by
  unfold headerOf
  have e1 := rdLE_eq 2 bs 0 (by omega)
  have e2 := rdLE_eq 2 bs 2 (by omega)
  have e3 := rdLE_eq 1 bs 4 (by omega)
  have e4 := rdLE_eq 1 bs 5 (by omega)
  have e5 := rdLE_eq 2 bs 6 (by omega)
  have e6 := rdLE_eq 4 bs 8 (by omega)
  have e7 := rdLE_eq 4 bs 12 (by omega)
  have e8 := rdLE_eq 8 bs 16 (by omega)
  have e9 := parse_dds_eq bs 24 (by omega)
  simp only [readHeader, e1, e2, e3, e4, e5, e6, e7, e8, e9,
    Nat.reduceAdd, Option.bind_eq_bind, Option.some_bind]
  simp [pure, List.drop_zero]

/-! ### C1: the accept/reject decision of Header::parse

The claim as frozen asserts the on-disk magic bytes are `0x5A, 0x56` in
that order.  `TE_MAGIC = 0x5A56` is read little-endian, so the bytes on
disk are `0x56, 0x5A`; a buffer starting `0x5A, 0x56` is rejected. -/

/-- C1 counterexample: a 40-byte buffer whose first two bytes are
`0x5A, 0x56` is rejected as Malformed, while `0x56, 0x5A` is accepted —
the claim's stated byte order is reversed. -/
theorem c1_counterexample :
    Header.parse (0x5a :: 0x56 :: List.replicate 38 0) =
      Except.error PError.malformed ∧
    (Header.parse (0x56 :: 0x5a :: List.replicate 38 0)).isOk = true :=
  ⟨rfl, rfl⟩

/-- C1 (amended): for every buffer of at least 40 bytes, `Header.parse`
succeeds iff the first two bytes are `0x56, 0x5A` (the little-endian
encoding of `TE_MAGIC = 0x5A56`); for any other first two bytes it
returns the Malformed error, and no other header field influences the
accept/reject decision. -/
theorem c1_magic (bs : List Nat) (h40 : 40 ≤ bs.length) (hwf : WFBytes bs) :
    ((∃ hd, Header.parse bs = Except.ok hd) ↔ bs.take 2 = [0x56, 0x5a])
    ∧ (bs.take 2 ≠ [0x56, 0x5a] →
        Header.parse bs = Except.error PError.malformed) := by
  obtain ⟨b0, b1, htake, hm0, hm1⟩ := take_two_of_le bs (by omega)
  have hb0 : b0 < 256 := hwf b0 hm0
  have hb1 : b1 < 256 := hwf b1 hm1
  have hsig : leVal (bs.take 2) = b0 + 256 * b1 := by
    rw [htake]; simp [leVal_cons, leVal]
  have hiff : (leVal (bs.take 2) = TE_MAGIC) ↔ (b0 = 0x56 ∧ b1 = 0x5a) := by
    rw [hsig]; unfold TE_MAGIC; omega
  obtain ⟨hd0, hrh, hsig0⟩ : ∃ hd0, readHeader bs = some hd0 ∧
      hd0.signature = leVal (bs.take 2) :=
    ⟨_, readHeader_eq bs h40, rfl⟩
  have hparse : Header.parse bs =
      if hd0.signature ≠ TE_MAGIC then Except.error PError.malformed
      else Except.ok hd0 := by
    unfold Header.parse
    rw [hrh]
  constructor
  · constructor
    · intro ⟨hd, hok⟩
      rw [hparse] at hok
      split at hok
      · exact absurd hok (by simp)
      · rename_i hc
        rw [htake]
        have hvv := hiff.mp (by rw [← hsig0]; omega)
        rw [hvv.1, hvv.2]
    · intro ht
      rw [htake] at ht
      have he : b0 = 0x56 ∧ b1 = 0x5a := by
        have := List.cons.inj ht
        have := List.cons.inj this.2
        exact ⟨(List.cons.inj ht).1, (List.cons.inj (List.cons.inj ht).2).1⟩
      rw [hparse]
      rw [if_neg (by
        simp only [ne_eq, not_not]
        rw [hsig0]
        exact hiff.mpr he)]
      exact ⟨hd0, rfl⟩
  · intro ht
    rw [htake] at ht
    have hne : ¬(b0 = 0x56 ∧ b1 = 0x5a) := by
      intro ⟨e0, e1⟩; exact ht (by rw [e0, e1])
    rw [hparse, if_pos (by
      simp only [ne_eq]
      rw [hsig0]
      intro hc
      exact hne (hiff.mp hc))]

/-- C1 witness: the amended theorem applied to a concrete valid buffer. -/
theorem c1_magic_witness :
    40 ≤ (0x56 :: 0x5a :: List.replicate 38 0 : List Nat).length ∧
    ((∃ hd, Header.parse (0x56 :: 0x5a :: List.replicate 38 0) =
        Except.ok hd) ↔
      (0x56 :: 0x5a :: List.replicate 38 0 : List Nat).take 2 =
        [0x56, 0x5a]) :=
  ⟨by decide,
    (c1_magic (0x56 :: 0x5a :: List.replicate 38 0) (by decide)
      (by decide)).1⟩

/-! ### C10: the (0,0) sentinel of data directories -/

/-- C10: an 8-byte pair decodes to `none` exactly when both fields are
zero; any other pair (including `(0, nonzero)` and `(nonzero, 0)`)
decodes to `some` of the directory, and a present entry with both fields
zero is never produced. -/
theorem c10_sentinel (bs : List Nat) (off va sz : Nat)
    (h : off + 8 ≤ bs.length)
    (hva : va = leVal ((bs.drop off).take 4))
    (hsz : sz = leVal ((bs.drop (off + 4)).take 4)) :
    (va = 0 ∧ sz = 0 →
      DataDirectories.parse_single bs off = some (none, off + 8))
    ∧ (¬(va = 0 ∧ sz = 0) →
      DataDirectories.parse_single bs off = some (some ⟨va, sz⟩, off + 8))
    ∧ (∀ d o2, DataDirectories.parse_single bs off = some (some d, o2) →
      ¬(d.virtual_address = 0 ∧ d.size = 0)) := by
  have he := parse_single_eq bs off h
  rw [← hva, ← hsz] at he
  refine ⟨?_, ?_, ?_⟩
  · intro hz
    rw [he]; unfold ddOf; rw [if_pos hz]
  · intro hnz
    rw [he]; unfold ddOf; rw [if_neg hnz]
  · intro d o2 hd
    rw [he] at hd
    unfold ddOf at hd
    split at hd
    · exact absurd hd (by simp)
    · rename_i hnz
      have : d = ⟨va, sz⟩ := by
        have := (Option.some.injEq _ _).mp hd
        have := (Prod.mk.injEq _ _ _ _).mp this
        have := (Option.some.injEq _ _).mp this.1
        exact this.symm
      rw [this]
      exact hnz

/-- C10 witness at a concrete `(0, nonzero)` pair. -/
theorem c10_sentinel_witness :
    DataDirectories.parse_single [0, 0, 0, 0, 7, 0, 0, 0] 0 =
      some (some ⟨0, 7⟩, 8) :=
  (c10_sentinel [0, 0, 0, 0, 7, 0, 0, 0] 0 0 7 (by decide) (by decide)
    (by decide)).2.1 (by decide)

/-! ### C4: one rebasing formula in all three places -/

/-- Modelled from the spec's words: the canonical rebasing formula
`p − stripped_size + TE_HEADER_SIZE` evaluated with wrapping arithmetic
modulo `w` (the width of the machine integer involved). -/
def spec_rebase (w p ss : Nat) : Nat :=
  ((p + w - ss % w) % w + SIZEOF_TE_HEADER) % w

/-- C4: the three TE section geometry accessors, `TE::adjust_offset`, and
the debug-directory rebase in `TE::parse` all compute the spec's single
formula `stored − stripped_size + 40` in wrapping arithmetic (u32 for the
section accessors and the debug rebase, usize for `adjust_offset`). -/
theorem c4_rebase (s : SectionTable) (te : TE) (h : Header) (x p : Nat) :
    s.rebased_pointer_to_raw_data =
      spec_rebase U32 s.pointer_to_raw_data s.stripped_size
    ∧ s.rebased_pointer_to_relocations =
      spec_rebase U32 s.pointer_to_relocations s.stripped_size
    ∧ s.rebased_pointer_to_linenumbers =
      spec_rebase U32 s.pointer_to_linenumbers s.stripped_size
    ∧ te.adjust_offset x = spec_rebase U64 x te.header.stripped_size
    ∧ debug_rebased_pointer h p = spec_rebase U32 p h.stripped_size := by
  have h32 : U32 = 4294967296 := by norm_num [U32]
  have h64 : U64 = 18446744073709551616 := by norm_num [U64]
  refine ⟨?_, ?_, ?_, ?_, ?_⟩ <;>
    simp only [SectionTable.rebased_pointer_to_raw_data,
      SectionTable.rebased_pointer_to_relocations,
      SectionTable.rebased_pointer_to_linenumbers, TE.adjust_offset,
      debug_rebased_pointer, spec_rebase, wadd32, wsub32, wadd64, wsub64,
      SIZEOF_TE_HEADER, h32, h64] <;>
    omega

/-! ### C7: decoding one WIN_CERTIFICATE record -/

/-- C7: with at least the 8-byte header available, a record whose
`dw_length` is below 8 fails as Malformed; otherwise, with
`dw_length + dw_length % 8` bytes available, decoding yields the
`dw_length − 8` payload bytes following the header and consumes
`8 + (dw_length − 8) + dw_length % 8` bytes (the pad skipped is
`dw_length % 8`, not the round-up complement).  The last conjunct is the
claim's concrete instance `dw_length = 16`. -/
theorem c7_cert_decode (src : List Nat) (dwl : Nat)
    (h8 : 8 ≤ src.length) (hdwl : dwl = leVal (src.take 4)) :
    (dwl < 8 →
      WinCertificate.try_from_ctx src = Except.error PError.malformed)
    ∧ (8 ≤ dwl → dwl + dwl % 8 ≤ src.length →
      WinCertificate.try_from_ctx src =
        Except.ok (⟨⟨dwl, leVal ((src.drop 4).take 2),
          leVal ((src.drop 6).take 2)⟩, (src.drop 8).take (dwl - 8)⟩,
          8 + (dwl - 8) + dwl % 8))
    ∧ WinCertificate.try_from_ctx [16, 0, 0, 0, 0, 2, 2, 0,
        1, 2, 3, 4, 5, 6, 7, 8] =
      Except.ok (⟨⟨16, 0x200, 2⟩, [1, 2, 3, 4, 5, 6, 7, 8]⟩, 16) := by
  have e1 := rdLE_eq 4 src 0 (by omega)
  have e2 := rdLE_eq 2 src 4 (by omega)
  have e3 := rdLE_eq 2 src 6 (by omega)
  have hd0 : (src.drop 0) = src := List.drop_zero src
  refine ⟨?_, ?_, by rfl⟩
  · intro hlt
    simp only [WinCertificate.try_from_ctx, e1, e2, e3, hd0]
    rw [if_pos (by omega)]
  · intro hge hlen
    have e4 := rdBytes_eq (dwl - 8) src 8 (by omega)
    have e5 := rdBytes_eq (dwl % 8) src (8 + (dwl - 8)) (by omega)
    simp only [WinCertificate.try_from_ctx, e1, e2, e3, e4, e5, hd0]
    rw [if_neg (by omega), ← hdwl]
    simp only [e4, e5]

/-- C7 witness: the theorem applied at the claim's concrete buffer. -/
theorem c7_cert_decode_witness :
    WinCertificate.try_from_ctx [16, 0, 0, 0, 0, 2, 2, 0,
      1, 2, 3, 4, 5, 6, 7, 8] =
      Except.ok (⟨⟨16, 512, 2⟩, [1, 2, 3, 4, 5, 6, 7, 8]⟩, 16) :=
  (c7_cert_decode [16, 0, 0, 0, 0, 2, 2, 0, 1, 2, 3, 4, 5, 6, 7, 8] 16
    (by decide) (by decide)).2.1 (by decide) (by decide)

/-! ### C8: iterating the certificate sequence -/

/-- C8: `next` yields `none` exactly when the decode at the cursor fails
(for any failure kind — the iterator's type can surface no error); a
failing decode leaves the cursor where it was, and once `next` yields
`none` the iterator is permanently ended with an unchanged cursor. -/
theorem c8_iteration (it : WinCertificates) :
    (∀ e, WinCertificate.try_from_ctx (it.bytes.drop it.offset) =
        Except.error e → it.next = (none, it))
    ∧ (it.next.1 = none ↔
        ∃ e, WinCertificate.try_from_ctx (it.bytes.drop it.offset) =
          Except.error e)
    ∧ (it.next.1 = none → it.next.2 = it ∧ it.next.2.next.1 = none) := by
  cases htf : WinCertificate.try_from_ctx (it.bytes.drop it.offset) with
  | ok v =>
    refine ⟨?_, ?_, ?_⟩
    · intro e he
      exact absurd he (by simp)
    · constructor
      · intro hn
        unfold WinCertificates.next at hn
        rw [htf] at hn
        cases v with
        | mk c sz => simp at hn
      · intro ⟨e, he⟩
        exact absurd he (by simp)
    · intro hn
      unfold WinCertificates.next at hn
      rw [htf] at hn
      cases v with
      | mk c sz => simp at hn
  | error e0 =>
    have hnext : it.next = (none, it) := by
      unfold WinCertificates.next
      rw [htf]
    refine ⟨fun e _ => hnext, ?_, ?_⟩
    · rw [hnext]
      exact ⟨fun _ => ⟨e0, rfl⟩, fun _ => rfl⟩
    · intro _
      rw [hnext]
      refine ⟨rfl, ?_⟩
      show it.next.1 = none
      rw [hnext]

/-- C8 witness: the empty buffer ends at once with the cursor unmoved. -/
theorem c8_iteration_witness :
    (⟨0, []⟩ : WinCertificates).next = (none, (⟨0, []⟩ : WinCertificates)) :=
  (c8_iteration ⟨0, []⟩).1 PError.scroll rfl

/-! ### C2: encode ∘ parse is the identity on the raw bytes -/

lemma rdLE_none (n : Nat) (bs : List Nat) (off : Nat)
    (h : bs.length < off + n) : rdLE n bs off = none := by
  unfold rdLE
  rw [if_neg (by omega)]

lemma rdBytes_none (n : Nat) (bs : List Nat) (off : Nat)
    (h : bs.length < off + n) : rdBytes n bs off = none := by
  unfold rdBytes
  rw [if_neg (by omega)]

lemma parse_single_none (bs : List Nat) (off : Nat)
    (h : bs.length < off + 8) : DataDirectories.parse_single bs off = none := by
  by_cases c : off + 4 ≤ bs.length
  · have e1 := rdLE_eq 4 bs off c
    have e2 := rdLE_none 4 bs (off + 4) (by omega)
    simp [DataDirectories.parse_single, e1, e2]
  · have e1 := rdLE_none 4 bs off (by omega)
    simp [DataDirectories.parse_single, e1]

lemma parse_dds_none (bs : List Nat) (off : Nat)
    (h : bs.length < off + 16) : DataDirectories.parse bs off = none := by
  by_cases c : off + 8 ≤ bs.length
  · have e1 := parse_single_eq bs off c
    have e2 := parse_single_none bs (off + 8) (by omega)
    simp [DataDirectories.parse, e1, e2]
  · have e1 := parse_single_none bs off (by omega)
    simp [DataDirectories.parse, e1]

set_option maxHeartbeats 1000000 in
lemma readHeader_none (bs : List Nat) (h : bs.length < 40) :
    readHeader bs = none := by
  unfold readHeader
  by_cases c1 : 2 ≤ bs.length
  swap
  · simp only [rdLE_none 2 bs 0 (by omega), Option.bind_eq_bind,
      Option.none_bind]
  by_cases c2 : 4 ≤ bs.length
  swap
  · simp only [rdLE_eq 2 bs 0 (by omega), Nat.reduceAdd,
      rdLE_none 2 bs 2 (by omega), Option.bind_eq_bind, Option.some_bind,
      Option.none_bind]
  by_cases c3 : 5 ≤ bs.length
  swap
  · simp only [rdLE_eq 2 bs 0 (by omega), rdLE_eq 2 bs 2 (by omega),
      Nat.reduceAdd, rdLE_none 1 bs 4 (by omega), Option.bind_eq_bind,
      Option.some_bind, Option.none_bind]
  by_cases c4 : 6 ≤ bs.length
  swap
  · simp only [rdLE_eq 2 bs 0 (by omega), rdLE_eq 2 bs 2 (by omega),
      rdLE_eq 1 bs 4 (by omega), Nat.reduceAdd,
      rdLE_none 1 bs 5 (by omega), Option.bind_eq_bind, Option.some_bind,
      Option.none_bind]
  by_cases c5 : 8 ≤ bs.length
  swap
  · simp only [rdLE_eq 2 bs 0 (by omega), rdLE_eq 2 bs 2 (by omega),
      rdLE_eq 1 bs 4 (by omega), rdLE_eq 1 bs 5 (by omega), Nat.reduceAdd,
      rdLE_none 2 bs 6 (by omega), Option.bind_eq_bind, Option.some_bind,
      Option.none_bind]
  by_cases c6 : 12 ≤ bs.length
  swap
  · simp only [rdLE_eq 2 bs 0 (by omega), rdLE_eq 2 bs 2 (by omega),
      rdLE_eq 1 bs 4 (by omega), rdLE_eq 1 bs 5 (by omega),
      rdLE_eq 2 bs 6 (by omega), Nat.reduceAdd,
      rdLE_none 4 bs 8 (by omega), Option.bind_eq_bind, Option.some_bind,
      Option.none_bind]
  by_cases c7 : 16 ≤ bs.length
  swap
  · simp only [rdLE_eq 2 bs 0 (by omega), rdLE_eq 2 bs 2 (by omega),
      rdLE_eq 1 bs 4 (by omega), rdLE_eq 1 bs 5 (by omega),
      rdLE_eq 2 bs 6 (by omega), rdLE_eq 4 bs 8 (by omega), Nat.reduceAdd,
      rdLE_none 4 bs 12 (by omega), Option.bind_eq_bind, Option.some_bind,
      Option.none_bind]
  by_cases c8 : 24 ≤ bs.length
  swap
  · simp only [rdLE_eq 2 bs 0 (by omega), rdLE_eq 2 bs 2 (by omega),
      rdLE_eq 1 bs 4 (by omega), rdLE_eq 1 bs 5 (by omega),
      rdLE_eq 2 bs 6 (by omega), rdLE_eq 4 bs 8 (by omega),
      rdLE_eq 4 bs 12 (by omega), Nat.reduceAdd,
      rdLE_none 8 bs 16 (by omega), Option.bind_eq_bind, Option.some_bind,
      Option.none_bind]
  · simp only [rdLE_eq 2 bs 0 (by omega), rdLE_eq 2 bs 2 (by omega),
      rdLE_eq 1 bs 4 (by omega), rdLE_eq 1 bs 5 (by omega),
      rdLE_eq 2 bs 6 (by omega), rdLE_eq 4 bs 8 (by omega),
      rdLE_eq 4 bs 12 (by omega), rdLE_eq 8 bs 16 (by omega), Nat.reduceAdd,
      parse_dds_none bs 24 (by omega), Option.bind_eq_bind, Option.some_bind,
      Option.none_bind]

/-- The section record decoded from 40 bytes at `off`. -/
def sectionOf (bs : List Nat) (off ss : Nat) : SectionTable :=
  { name := (bs.drop off).take 8
    virtual_size := leVal ((bs.drop (off + 8)).take 4)
    virtual_address := leVal ((bs.drop (off + 12)).take 4)
    size_of_raw_data := leVal ((bs.drop (off + 16)).take 4)
    pointer_to_raw_data := leVal ((bs.drop (off + 20)).take 4)
    pointer_to_relocations := leVal ((bs.drop (off + 24)).take 4)
    pointer_to_linenumbers := leVal ((bs.drop (off + 28)).take 4)
    number_of_relocations := leVal ((bs.drop (off + 32)).take 2)
    number_of_linenumbers := leVal ((bs.drop (off + 34)).take 2)
    characteristics := leVal ((bs.drop (off + 36)).take 4)
    stripped_size := ss }

lemma rdLE_some (n : Nat) (bs : List Nat) (off v o : Nat)
    (h : rdLE n bs off = some (v, o)) :
    off + n ≤ bs.length ∧ o = off + n ∧ v = leVal ((bs.drop off).take n) := by
  unfold rdLE at h
  split at h
  · rename_i hc
    simp only [Option.some.injEq, Prod.mk.injEq] at h
    exact ⟨hc, h.2.symm, h.1.symm⟩
  · exact absurd h (by simp)

lemma rdBytes_some (n : Nat) (bs : List Nat) (off : Nat) (v : List Nat)
    (o : Nat) (h : rdBytes n bs off = some (v, o)) :
    off + n ≤ bs.length ∧ o = off + n ∧ v = (bs.drop off).take n := by
  unfold rdBytes at h
  split at h
  · rename_i hc
    simp only [Option.some.injEq, Prod.mk.injEq] at h
    exact ⟨hc, h.2.symm, h.1.symm⟩
  · exact absurd h (by simp)

set_option maxHeartbeats 1000000 in
lemma section_parse_some (bs : List Nat) (off ss : Nat) (s : SectionTable)
    (o2 : Nat) (hp : SectionTable.parse bs off ss = some (s, o2)) :
    off + 40 ≤ bs.length ∧ s = sectionOf bs off ss ∧ o2 = off + 40 := by
  unfold SectionTable.parse at hp
  cases h0 : rdBytes 8 bs off with
  | none =>
    rw [h0] at hp
    simp only [Option.bind_eq_bind, Option.none_bind] at hp
    exact absurd hp (by simp)
  | some p0 =>
  obtain ⟨nm, o1⟩ := p0
  obtain ⟨hk0, ho1, hv0⟩ := rdBytes_some 8 bs off nm o1 h0
  rw [h0] at hp
  simp only [Option.bind_eq_bind, Option.some_bind] at hp
  subst ho1
  cases h1 : rdLE 4 bs (off + 8) with
  | none =>
    rw [h1] at hp
    simp only [Option.none_bind] at hp
    exact absurd hp (by simp)
  | some p1 =>
  obtain ⟨v1, o1⟩ := p1
  obtain ⟨hk1, ho1, hv1⟩ := rdLE_some 4 bs (off + 8) v1 o1 h1
  rw [h1] at hp
  simp only [Option.some_bind] at hp
  rw [show off + 8 + 4 = off + 12 by omega] at ho1
  subst ho1
  cases h2 : rdLE 4 bs (off + 12) with
  | none =>
    rw [h2] at hp
    simp only [Option.none_bind] at hp
    exact absurd hp (by simp)
  | some p2 =>
  obtain ⟨v2, o1⟩ := p2
  obtain ⟨hk2, ho2, hv2⟩ := rdLE_some 4 bs (off + 12) v2 o1 h2
  rw [h2] at hp
  simp only [Option.some_bind] at hp
  rw [show off + 12 + 4 = off + 16 by omega] at ho2
  subst ho2
  cases h3 : rdLE 4 bs (off + 16) with
  | none =>
    rw [h3] at hp
    simp only [Option.none_bind] at hp
    exact absurd hp (by simp)
  | some p3 =>
  obtain ⟨v3, o1⟩ := p3
  obtain ⟨hk3, ho3, hv3⟩ := rdLE_some 4 bs (off + 16) v3 o1 h3
  rw [h3] at hp
  simp only [Option.some_bind] at hp
  rw [show off + 16 + 4 = off + 20 by omega] at ho3
  subst ho3
  cases h4 : rdLE 4 bs (off + 20) with
  | none =>
    rw [h4] at hp
    simp only [Option.none_bind] at hp
    exact absurd hp (by simp)
  | some p4 =>
  obtain ⟨v4, o1⟩ := p4
  obtain ⟨hk4, ho4, hv4⟩ := rdLE_some 4 bs (off + 20) v4 o1 h4
  rw [h4] at hp
  simp only [Option.some_bind] at hp
  rw [show off + 20 + 4 = off + 24 by omega] at ho4
  subst ho4
  cases h5 : rdLE 4 bs (off + 24) with
  | none =>
    rw [h5] at hp
    simp only [Option.none_bind] at hp
    exact absurd hp (by simp)
  | some p5 =>
  obtain ⟨v5, o1⟩ := p5
  obtain ⟨hk5, ho5, hv5⟩ := rdLE_some 4 bs (off + 24) v5 o1 h5
  rw [h5] at hp
  simp only [Option.some_bind] at hp
  rw [show off + 24 + 4 = off + 28 by omega] at ho5
  subst ho5
  cases h6 : rdLE 4 bs (off + 28) with
  | none =>
    rw [h6] at hp
    simp only [Option.none_bind] at hp
    exact absurd hp (by simp)
  | some p6 =>
  obtain ⟨v6, o1⟩ := p6
  obtain ⟨hk6, ho6, hv6⟩ := rdLE_some 4 bs (off + 28) v6 o1 h6
  rw [h6] at hp
  simp only [Option.some_bind] at hp
  rw [show off + 28 + 4 = off + 32 by omega] at ho6
  subst ho6
  cases h7 : rdLE 2 bs (off + 32) with
  | none =>
    rw [h7] at hp
    simp only [Option.none_bind] at hp
    exact absurd hp (by simp)
  | some p7 =>
  obtain ⟨v7, o1⟩ := p7
  obtain ⟨hk7, ho7, hv7⟩ := rdLE_some 2 bs (off + 32) v7 o1 h7
  rw [h7] at hp
  simp only [Option.some_bind] at hp
  rw [show off + 32 + 2 = off + 34 by omega] at ho7
  subst ho7
  cases h8 : rdLE 2 bs (off + 34) with
  | none =>
    rw [h8] at hp
    simp only [Option.none_bind] at hp
    exact absurd hp (by simp)
  | some p8 =>
  obtain ⟨v8, o1⟩ := p8
  obtain ⟨hk8, ho8, hv8⟩ := rdLE_some 2 bs (off + 34) v8 o1 h8
  rw [h8] at hp
  simp only [Option.some_bind] at hp
  rw [show off + 34 + 2 = off + 36 by omega] at ho8
  subst ho8
  cases h9 : rdLE 4 bs (off + 36) with
  | none =>
    rw [h9] at hp
    simp only [Option.none_bind] at hp
    exact absurd hp (by simp)
  | some p9 =>
  obtain ⟨v9, o1⟩ := p9
  obtain ⟨hk9, ho9, hv9⟩ := rdLE_some 4 bs (off + 36) v9 o1 h9
  rw [h9] at hp
  simp only [Option.some_bind] at hp
  rw [show off + 36 + 4 = off + 40 by omega] at ho9
  subst ho9
  simp only [pure, Option.some.injEq, Prod.mk.injEq] at hp
  obtain ⟨hsec, hoo⟩ := hp
  refine ⟨by omega, ?_, hoo.symm⟩
  rw [← hsec]
  unfold sectionOf
  rw [hv0, hv1, hv2, hv3, hv4, hv5, hv6, hv7, hv8, hv9]

lemma take_append_drop_take (bs : List Nat) (k a b : Nat) :
    (bs.drop k).take (a + b) = (bs.drop k).take a ++ (bs.drop (k + a)).take b := by
  rw [List.take_add]
  congr 1
  rw [List.drop_drop]

lemma leBytes_slice (bs : List Nat) (hwf : WFBytes bs) (k n : Nat)
    (h : k + n ≤ bs.length) :
    leBytes n (leVal ((bs.drop k).take n)) = (bs.drop k).take n := by
  have hlen : ((bs.drop k).take n).length = n := by
    simp only [List.length_take, List.length_drop]
    omega
  have hsub : ∀ b ∈ (bs.drop k).take n, b < 256 := fun b hb =>
    hwf b (List.drop_subset k bs (List.take_subset n _ hb))
  calc leBytes n (leVal ((bs.drop k).take n))
      = leBytes ((bs.drop k).take n).length (leVal ((bs.drop k).take n)) := by
        rw [hlen]
    _ = (bs.drop k).take n := leBytes_leVal _ hsub

lemma ddOf_getD_va (va sz : Nat) :
    ((ddOf va sz).getD ⟨0, 0⟩).virtual_address = va := by
  unfold ddOf
  split
  · rename_i hz
    simp [hz.1]
  · simp

lemma ddOf_getD_sz (va sz : Nat) : ((ddOf va sz).getD ⟨0, 0⟩).size = sz := by
  unfold ddOf
  split
  · rename_i hz
    simp [hz.2]
  · simp

lemma dds_encode_eq (a b c d : Nat) :
    DataDirectories.try_into_ctx ⟨ddOf a b, ddOf c d⟩ =
      (leBytes 4 a ++ leBytes 4 b) ++ (leBytes 4 c ++ leBytes 4 d) := by
  unfold DataDirectories.try_into_ctx
  rw [ddOf_getD_va, ddOf_getD_sz, ddOf_getD_va, ddOf_getD_sz]

lemma take40_split_header (bs : List Nat) :
    bs.take 40 = bs.take 2 ++ ((bs.drop 2).take 2 ++ ((bs.drop 4).take 1 ++
      ((bs.drop 5).take 1 ++ ((bs.drop 6).take 2 ++ ((bs.drop 8).take 4 ++
      ((bs.drop 12).take 4 ++ ((bs.drop 16).take 8 ++
      ((bs.drop 24).take 4 ++ ((bs.drop 28).take 4 ++
      ((bs.drop 32).take 4 ++ (bs.drop 36).take 4)))))))))) := by
  have s2 := take_append_drop_take bs 2 2 36
  have s3 := take_append_drop_take bs 4 1 35
  have s4 := take_append_drop_take bs 5 1 34
  have s5 := take_append_drop_take bs 6 2 32
  have s6 := take_append_drop_take bs 8 4 28
  have s7 := take_append_drop_take bs 12 4 24
  have s8 := take_append_drop_take bs 16 8 16
  have s9 := take_append_drop_take bs 24 4 12
  have s10 := take_append_drop_take bs 28 4 8
  have s11 := take_append_drop_take bs 32 4 4
  norm_num at s2 s3 s4 s5 s6 s7 s8 s9 s10 s11
  rw [show (40 : Nat) = 2 + 38 by norm_num, List.take_add]
  rw [s2, s3, s4, s5, s6, s7, s8, s9, s10, s11]

lemma take40_split_section (bs : List Nat) (off : Nat) :
    (bs.drop off).take 40 = (bs.drop off).take 8 ++
      ((bs.drop (off + 8)).take 4 ++ ((bs.drop (off + 12)).take 4 ++
      ((bs.drop (off + 16)).take 4 ++ ((bs.drop (off + 20)).take 4 ++
      ((bs.drop (off + 24)).take 4 ++ ((bs.drop (off + 28)).take 4 ++
      ((bs.drop (off + 32)).take 2 ++ ((bs.drop (off + 34)).take 2 ++
      (bs.drop (off + 36)).take 4)))))))) := by
  have s1 := take_append_drop_take bs off 8 32
  have s2 := take_append_drop_take bs (off + 8) 4 28
  have s3 := take_append_drop_take bs (off + 12) 4 24
  have s4 := take_append_drop_take bs (off + 16) 4 20
  have s5 := take_append_drop_take bs (off + 20) 4 16
  have s6 := take_append_drop_take bs (off + 24) 4 12
  have s7 := take_append_drop_take bs (off + 28) 4 8
  have s8 := take_append_drop_take bs (off + 32) 2 6
  have s9 := take_append_drop_take bs (off + 34) 2 4
  have n1 : off + 8 + 4 = off + 12 := by omega
  have n2 : off + 12 + 4 = off + 16 := by omega
  have n3 : off + 16 + 4 = off + 20 := by omega
  have n4 : off + 20 + 4 = off + 24 := by omega
  have n5 : off + 24 + 4 = off + 28 := by omega
  have n6 : off + 28 + 4 = off + 32 := by omega
  have n7 : off + 32 + 2 = off + 34 := by omega
  have n8 : off + 34 + 2 = off + 36 := by omega
  rw [n1] at s2
  rw [n2] at s3
  rw [n3] at s4
  rw [n4] at s5
  rw [n5] at s6
  rw [n6] at s7
  rw [n7] at s8
  rw [n8] at s9
  norm_num at s1 s2 s3 s4 s5 s6 s7 s8 s9
  rw [s1, s2, s3, s4, s5, s6, s7, s8, s9]

/-- C2: re-encoding a successfully parsed TE header reproduces the
original 40 header bytes (absent data directories re-encode as `(0,0)`
pairs), and re-encoding a successfully parsed section record reproduces
the original 40-byte record. -/
lemma header_parse_ok (bs : List Nat) (h : Header)
    (hok : Header.parse bs = Except.ok h) :
    40 ≤ bs.length ∧ h = headerOf bs := by
  have hlen : 40 ≤ bs.length := by
    by_contra hc
    push_neg at hc
    unfold Header.parse at hok
    rw [readHeader_none bs hc] at hok
    exact absurd hok (by simp)
  refine ⟨hlen, ?_⟩
  have hparse : Header.parse bs =
      if (headerOf bs).signature ≠ TE_MAGIC then Except.error PError.malformed
      else Except.ok (headerOf bs) := by
    unfold Header.parse
    rw [readHeader_eq bs hlen]
  rw [hparse] at hok
  split at hok
  · exact absurd hok (by simp)
  · injection hok with hh
    exact hh.symm

/-- C2: re-encoding a successfully parsed TE header reproduces the
original 40 header bytes (absent data directories re-encode as `(0,0)`
pairs), and re-encoding a successfully parsed section record reproduces
the original 40-byte record. -/
theorem c2_roundtrip (bs : List Nat) (hwf : WFBytes bs) :
    (∀ h, Header.parse bs = Except.ok h → h.try_into_ctx = bs.take 40)
    ∧ (∀ off ss s o2, SectionTable.parse bs off ss = some (s, o2) →
        s.try_into_ctx = (bs.drop off).take 40) := by
  constructor
  · intro h hok
    obtain ⟨hlen, hh⟩ := header_parse_ok bs h hok
    subst hh
    have w1 := leBytes_slice bs hwf 0 2 (by omega)
    rw [List.drop_zero] at w1
    have w2 := leBytes_slice bs hwf 2 2 (by omega)
    have w3 := leBytes_slice bs hwf 4 1 (by omega)
    have w4 := leBytes_slice bs hwf 5 1 (by omega)
    have w5 := leBytes_slice bs hwf 6 2 (by omega)
    have w6 := leBytes_slice bs hwf 8 4 (by omega)
    have w7 := leBytes_slice bs hwf 12 4 (by omega)
    have w8 := leBytes_slice bs hwf 16 8 (by omega)
    have w9 := leBytes_slice bs hwf 24 4 (by omega)
    have w10 := leBytes_slice bs hwf 28 4 (by omega)
    have w11 := leBytes_slice bs hwf 32 4 (by omega)
    have w12 := leBytes_slice bs hwf 36 4 (by omega)
    show (headerOf bs).try_into_ctx = bs.take 40
    simp only [Header.try_into_ctx, headerOf]
    rw [dds_encode_eq]
    rw [w1, w2, w3, w4, w5, w6, w7, w8, w9, w10, w11, w12]
    rw [take40_split_header bs]
    simp [List.append_assoc]
  · intro off ss s o2 hp
    obtain ⟨hlen, hs, _⟩ := section_parse_some bs off ss s o2 hp
    subst hs
    have w1 := leBytes_slice bs hwf (off + 8) 4 (by omega)
    have w2 := leBytes_slice bs hwf (off + 12) 4 (by omega)
    have w3 := leBytes_slice bs hwf (off + 16) 4 (by omega)
    have w4 := leBytes_slice bs hwf (off + 20) 4 (by omega)
    have w5 := leBytes_slice bs hwf (off + 24) 4 (by omega)
    have w6 := leBytes_slice bs hwf (off + 28) 4 (by omega)
    have w7 := leBytes_slice bs hwf (off + 32) 2 (by omega)
    have w8 := leBytes_slice bs hwf (off + 34) 2 (by omega)
    have w9 := leBytes_slice bs hwf (off + 36) 4 (by omega)
    show (sectionOf bs off ss).try_into_ctx = (bs.drop off).take 40
    simp only [SectionTable.try_into_ctx, sectionOf]
    rw [w1, w2, w3, w4, w5, w6, w7, w8, w9]
    rw [take40_split_section bs off]
    simp [List.append_assoc]

/-- C2 witness: a concrete valid header buffer and a concrete section
record both survive the round trip. -/
theorem c2_roundtrip_witness :
    Header.try_into_ctx (headerOf (0x56 :: 0x5a :: List.replicate 38 1)) =
      (0x56 :: 0x5a :: List.replicate 38 1).take 40 :=
  (c2_roundtrip (0x56 :: 0x5a :: List.replicate 38 1) (by decide)).1
    (headerOf (0x56 :: 0x5a :: List.replicate 38 1)) (by rfl)

/-! ### Resolver helper lemmas -/

lemma U32_val : U32 = 4294967296 := by norm_num [U32]

lemma U64_val : U64 = 18446744073709551616 := by norm_num [U64]

lemma wadd64_le_add (a b : Nat) : wadd64 a b ≤ a + b := by
  unfold wadd64
  calc (a % U64 + b % U64) % U64 ≤ a % U64 + b % U64 := Nat.mod_le _ _
    _ ≤ a + b := Nat.add_le_add (Nat.mod_le _ _) (Nat.mod_le _ _)

lemma round_size_le_add (size : Nat) : round_size size ≤ size + 0xfff := by
  unfold round_size
  calc wadd64 size 0xfff &&& not64 0xfff ≤ wadd64 size 0xfff :=
        Nat.and_le_left
    _ ≤ size + 0xfff := wadd64_le_add size 0xfff

lemma round_size_eq (size : Nat) (h : size + 0xfff < U64) :
    round_size size = (size + 0xfff) - (size + 0xfff) % 4096 := by
  unfold round_size
  rw [wadd64_eq size 0xfff (by omega) h]
  have hh := and_not64_two_pow_sub_one (size + 0xfff) 12 h (by omega)
  norm_num at hh
  exact hh

lemma round_size_ge (size : Nat) (h : size + 0xfff < U64) :
    size ≤ round_size size := by
  rw [round_size_eq size h]
  have : (size + 0xfff) % 4096 < 4096 := Nat.mod_lt _ (by omega)
  omega

lemma round_size_mono (a b : Nat) (hab : a ≤ b) (hb : b + 0xfff < U64) :
    round_size a ≤ round_size b := by
  rw [round_size_eq a (by omega), round_size_eq b hb]
  omega

lemma aligned_eq (p : Nat) (h : p < U64) :
    aligned_pointer_to_raw_data p = p - p % 512 := by
  unfold aligned_pointer_to_raw_data
  rw [Nat.mod_eq_of_lt h]
  have hh := and_not64_two_pow_sub_one p 9 h (by omega)
  norm_num at hh
  exact hh

lemma aligned_le (p : Nat) (h : p < U64) :
    aligned_pointer_to_raw_data p ≤ p := by
  rw [aligned_eq p h]
  omega

/-- `section_read_size` never exceeds the 4KiB-rounded ceiling of
`size_of_raw_data` (exact at every input, no hypotheses). -/
lemma srs_le_round (s : GSec) (fa : Nat) :
    section_read_size s fa ≤ round_size s.size_of_raw_data := by
  unfold section_read_size
  split
  · exact Nat.min_le_right _ _
  · exact le_trans (Nat.min_le_left _ _) (Nat.min_le_right _ _)

lemma srs_lt (s : GSec) (fa : Nat) (h : s.size_of_raw_data < U32) :
    section_read_size s fa < U32 + 0x1000 := by
  have h1 := srs_le_round s fa
  have h2 := round_size_le_add s.size_of_raw_data
  omega

/-- Plain-arithmetic form of `section_read_size`, valid whenever
`file_alignment ≥ 1` and the section fields fit in u32. -/
def srs_plain (s : GSec) (fa : Nat) : Nat :=
  let x := s.pointer_to_raw_data + s.size_of_raw_data + fa - 1
  let masked := x &&& not64 (fa - 1)
  let r := min (masked - aligned_pointer_to_raw_data s.pointer_to_raw_data)
    (round_size s.size_of_raw_data)
  if s.virtual_size = 0 then r else min r (round_size s.virtual_size)

lemma ptr_le_masked (s : GSec) (fa : Nat) (hs : WFSec s) (hfa1 : 1 ≤ fa)
    (hfa : fa < U32) :
    s.pointer_to_raw_data ≤
      (s.pointer_to_raw_data + s.size_of_raw_data + fa - 1) &&&
        not64 (fa - 1) := by
  obtain ⟨hv, ha, hd, hp⟩ := hs
  have hU1 := U32_val
  have hU2 := U64_val
  have hx : s.pointer_to_raw_data + s.size_of_raw_data + fa - 1 < U64 := by
    omega
  have hkey := sub_le_and_not64
    (s.pointer_to_raw_data + s.size_of_raw_data + fa - 1) (fa - 1) hx
    (by omega)
  omega

lemma section_read_size_eq_plain (s : GSec) (fa : Nat) (hs : WFSec s)
    (hfa1 : 1 ≤ fa) (hfa : fa < U32) :
    section_read_size s fa = srs_plain s fa := by
  obtain ⟨hv, ha, hd, hp⟩ := hs
  have hU1 := U32_val
  have hU2 := U64_val
  have e1 : wadd64 s.pointer_to_raw_data s.size_of_raw_data =
      s.pointer_to_raw_data + s.size_of_raw_data :=
    wadd64_eq _ _ (by omega) (by omega)
  have e2 : wadd64 (s.pointer_to_raw_data + s.size_of_raw_data) fa =
      s.pointer_to_raw_data + s.size_of_raw_data + fa :=
    wadd64_eq _ _ (by omega) (by omega)
  have e3 : wsub64 (s.pointer_to_raw_data + s.size_of_raw_data + fa) 1 =
      s.pointer_to_raw_data + s.size_of_raw_data + fa - 1 :=
    wsub64_eq _ _ (by omega) (by omega)
  have e4 : wsub64 fa 1 = fa - 1 := wsub64_eq _ _ (by omega) (by omega)
  have hmge := ptr_le_masked s fa ⟨hv, ha, hd, hp⟩ hfa1 hfa
  have hmle : (s.pointer_to_raw_data + s.size_of_raw_data + fa - 1) &&&
      not64 (fa - 1) ≤ s.pointer_to_raw_data + s.size_of_raw_data + fa - 1 :=
    Nat.and_le_left
  have hale : aligned_pointer_to_raw_data s.pointer_to_raw_data ≤
      s.pointer_to_raw_data := aligned_le _ (by omega)
  have e5 : wsub64 ((s.pointer_to_raw_data + s.size_of_raw_data + fa - 1) &&&
      not64 (fa - 1)) (aligned_pointer_to_raw_data s.pointer_to_raw_data) =
      ((s.pointer_to_raw_data + s.size_of_raw_data + fa - 1) &&&
        not64 (fa - 1)) -
        aligned_pointer_to_raw_data s.pointer_to_raw_data :=
    wsub64_eq _ _ (by omega) (by omega)
  simp only [section_read_size, srs_plain]
  rw [e1, e2, e3, e4, e5]

lemma is_in_section_iff (rva : Nat) (s : GSec) (fa : Nat) (hs : WFSec s) :
    is_in_section rva s fa = true ↔
      s.virtual_address ≤ rva ∧
        rva < s.virtual_address + section_read_size s fa := by
  have hU1 := U32_val
  have hU2 := U64_val
  have hsrs := srs_lt s fa hs.2.2.1
  have hva := hs.2.1
  unfold is_in_section is_in_range
  rw [wadd64_eq s.virtual_address (section_read_size s fa) (by omega)
    (by omega)]
  simp

lemma matched_offset_eq (rva : Nat) (s : GSec) (fa : Nat) (hs : WFSec s)
    (hm : is_in_section rva s fa = true) :
    wadd64 s.pointer_to_raw_data (wsub64 rva s.virtual_address) =
      s.pointer_to_raw_data + (rva - s.virtual_address) := by
  obtain ⟨hva, hlt⟩ := (is_in_section_iff rva s fa hs).mp hm
  have hU1 := U32_val
  have hU2 := U64_val
  have hsrs := srs_lt s fa hs.2.2.1
  have hvau := hs.2.1
  have hptr := hs.2.2.2
  rw [wsub64_eq rva s.virtual_address (by omega) hva,
    wadd64_eq s.pointer_to_raw_data (rva - s.virtual_address) (by omega)
      (by omega)]

lemma find_raw_offset_none_iff (rva fa : Nat) (sections : List GSec) :
    find_raw_offset rva sections fa = none ↔
      ∀ s ∈ sections, is_in_section rva s fa = false := by
  induction sections with
  | nil => simp [find_raw_offset]
  | cons s rest ih =>
    unfold find_raw_offset
    cases hc : is_in_section rva s fa with
    | true => simp [hc]
    | false => simp [hc, ih]

lemma find_raw_offset_some_iff (rva fa : Nat) (sections : List GSec)
    (hwf : ∀ s ∈ sections, WFSec s) (off : Nat) :
    find_raw_offset rva sections fa = some off ↔
      ∃ i, ∃ hi : i < sections.length,
        is_in_section rva (sections.get ⟨i, hi⟩) fa = true
        ∧ (∀ j, ∀ hj : j < sections.length, j < i →
            is_in_section rva (sections.get ⟨j, hj⟩) fa = false)
        ∧ off = (sections.get ⟨i, hi⟩).pointer_to_raw_data +
            (rva - (sections.get ⟨i, hi⟩).virtual_address) := by
  induction sections with
  | nil => simp [find_raw_offset]
  | cons s rest ih =>
    have hws : WFSec s := hwf s (by simp)
    have hwr : ∀ t ∈ rest, WFSec t := fun t ht => hwf t (by simp [ht])
    unfold find_raw_offset
    cases hc : is_in_section rva s fa with
    | true =>
      rw [if_pos rfl]
      have hval := matched_offset_eq rva s fa hws hc
      constructor
      · intro hsome
        refine ⟨0, by simp, by simpa using hc, ?_, ?_⟩
        · intro j hj hj0
          omega
        · simp only [List.get]
          rw [← hval]
          exact ((Option.some.injEq _ _).mp hsome).symm
      · intro ⟨i, hi, hmatch, hbefore, hoff⟩
        cases i with
        | zero =>
          simp only [List.get] at hoff
          rw [hoff, ← hval]
        | succ k =>
          have := hbefore 0 (by simp) (by omega)
          simp only [List.get] at this
          rw [hc] at this
          exact absurd this (by simp)
    | false =>
      rw [if_neg (by simp [hc])]
      rw [ih hwr]
      constructor
      · intro ⟨i, hi, hmatch, hbefore, hoff⟩
        refine ⟨i + 1, by simpa using Nat.succ_lt_succ hi, ?_, ?_, ?_⟩
        · simpa using hmatch
        · intro j hj hji
          cases j with
          | zero => simpa using hc
          | succ m =>
            have hm : m < rest.length := by simpa using hj
            have := hbefore m hm (by omega)
            simpa using this
        · simpa using hoff
      · intro ⟨i, hi, hmatch, hbefore, hoff⟩
        cases i with
        | zero =>
          simp only [List.get] at hmatch
          rw [hc] at hmatch
          exact absurd hmatch (by simp)
        | succ k =>
          have hk : k < rest.length := by simpa using hi
          refine ⟨k, hk, by simpa using hmatch, ?_, by simpa using hoff⟩
          intro j hj hji
          have := hbefore (j + 1) (by simpa using Nat.succ_lt_succ hj)
            (by omega)
          simpa using this

/-! ### C5: first-match semantics of find_raw_offset -/

/-- C5: `find_raw_offset` returns `Some (pointer_to_raw_data +
(rva − virtual_address))` computed from the first section containing
`rva` (first match wins; any later matching section is ignored), and
`None` exactly when no section contains `rva`; a section contains `rva`
exactly when `rva` lies in the half-open interval
`[virtual_address, virtual_address + section_read_size)`. -/
theorem c5_first_match (rva fa : Nat) (sections : List GSec)
    (hwf : ∀ s ∈ sections, WFSec s) :
    (find_raw_offset rva sections fa = none ↔
      ∀ s ∈ sections, is_in_section rva s fa = false)
    ∧ (∀ off, find_raw_offset rva sections fa = some off ↔
      ∃ i, ∃ hi : i < sections.length,
        is_in_section rva (sections.get ⟨i, hi⟩) fa = true
        ∧ (∀ j, ∀ hj : j < sections.length, j < i →
            is_in_section rva (sections.get ⟨j, hj⟩) fa = false)
        ∧ off = (sections.get ⟨i, hi⟩).pointer_to_raw_data +
            (rva - (sections.get ⟨i, hi⟩).virtual_address))
    ∧ (∀ s, WFSec s → (is_in_section rva s fa = true ↔
        s.virtual_address ≤ rva ∧
          rva < s.virtual_address + section_read_size s fa)) :=
  ⟨find_raw_offset_none_iff rva fa sections,
    fun off => find_raw_offset_some_iff rva fa sections hwf off,
    fun s hs => is_in_section_iff rva s fa hs⟩

/-- C5 witness: a concrete one-section table. -/
theorem c5_first_match_witness :
    find_raw_offset 16 [⟨0, 0, 4096, 1024⟩] 512 = some 1040 ↔
      ∃ i, ∃ hi : i < ([⟨0, 0, 4096, 1024⟩] : List GSec).length,
        is_in_section 16 (([⟨0, 0, 4096, 1024⟩] : List GSec).get ⟨i, hi⟩)
          512 = true
        ∧ (∀ j, ∀ hj : j < ([⟨0, 0, 4096, 1024⟩] : List GSec).length,
            j < i → is_in_section 16
              (([⟨0, 0, 4096, 1024⟩] : List GSec).get ⟨j, hj⟩) 512 = false)
        ∧ 1040 = (([⟨0, 0, 4096, 1024⟩] : List GSec).get
            ⟨i, hi⟩).pointer_to_raw_data +
            (16 - (([⟨0, 0, 4096, 1024⟩] : List GSec).get
              ⟨i, hi⟩).virtual_address) :=
  (c5_first_match 16 512 [⟨0, 0, 4096, 1024⟩] (by decide)).2.1 1040

/-! ### C9: find_offset and the physical alignment -/

lemma find_offset_loop_eq_find (rva fa : Nat) (sections : List GSec) :
    find_offset_loop rva sections fa =
      (sections.find? (fun s => is_in_section rva s fa)).map
        (fun s => rva2offset rva s) := by
  induction sections with
  | nil => simp [find_offset_loop]
  | cons s rest ih =>
    unfold find_offset_loop
    cases hc : is_in_section rva s fa with
    | true => simp [List.find?_cons, hc]
    | false => simp [List.find?_cons, hc, ih]

lemma find_raw_offset_eq_find (rva fa : Nat) (sections : List GSec) :
    find_raw_offset rva sections fa =
      (sections.find? (fun s => is_in_section rva s fa)).map
        (fun s => wadd64 s.pointer_to_raw_data
          (wsub64 rva s.virtual_address)) := by
  induction sections with
  | nil => simp [find_raw_offset]
  | cons s rest ih =>
    unfold find_raw_offset
    cases hc : is_in_section rva s fa with
    | true => simp [List.find?_cons, hc]
    | false => simp [List.find?_cons, hc, ih]

/-- C9: with RVA resolution disabled, `find_offset` returns the rva
unchanged whatever the section table holds; with it enabled it performs
the same first-match search as `find_raw_offset` (identical predicate),
but the offset from the matching section is
`(rva − virtual_address) + physical_align(pointer_to_raw_data)`, where
`physical_align` clears the low 9 bits, i.e. rounds down to a 512-byte
boundary. -/
theorem c9_find_offset (rva fa : Nat) (sections : List GSec) :
    (find_offset rva sections fa false = some rva)
    ∧ (find_offset rva sections fa true =
      (sections.find? (fun s => is_in_section rva s fa)).map
        (fun s => rva2offset rva s))
    ∧ (find_raw_offset rva sections fa =
      (sections.find? (fun s => is_in_section rva s fa)).map
        (fun s => wadd64 s.pointer_to_raw_data
          (wsub64 rva s.virtual_address)))
    ∧ (∀ s, WFSec s → is_in_section rva s fa = true →
      rva2offset rva s = (rva - s.virtual_address) +
        aligned_pointer_to_raw_data s.pointer_to_raw_data)
    ∧ (∀ p, p < U64 →
      aligned_pointer_to_raw_data p = 512 * (p / 512)) := by
  refine ⟨rfl, ?_, find_raw_offset_eq_find rva fa sections, ?_, ?_⟩
  · unfold find_offset
    rw [if_pos rfl]
    exact find_offset_loop_eq_find rva fa sections
  · intro s hs hm
    obtain ⟨hva, hlt⟩ := (is_in_section_iff rva s fa hs).mp hm
    have hU1 := U32_val
    have hU2 := U64_val
    have hsrs := srs_lt s fa hs.2.2.1
    have hvau := hs.2.1
    have hptr := hs.2.2.2
    have hale : aligned_pointer_to_raw_data s.pointer_to_raw_data ≤
        s.pointer_to_raw_data := aligned_le _ (by omega)
    unfold rva2offset
    rw [wsub64_eq rva s.virtual_address (by omega) hva,
      wadd64_eq (rva - s.virtual_address)
        (aligned_pointer_to_raw_data s.pointer_to_raw_data) (by omega)
        (by omega)]
  · intro p hp
    rw [aligned_eq p hp]
    omega

/-- C9 witness: bypass and a matched section at a concrete input. -/
theorem c9_find_offset_witness :
    find_offset 99 [⟨0, 0, 4096, 1024⟩] 512 false = some 99 ∧
    aligned_pointer_to_raw_data 1535 = 512 * (1535 / 512) :=
  ⟨(c9_find_offset 99 512 [⟨0, 0, 4096, 1024⟩]).1,
    (c9_find_offset 99 512 [⟨0, 0, 4096, 1024⟩]).2.2.2.2 1535 (by decide)⟩

/-! ### C6: monotonicity and bound of section_read_size -/

lemma sub_mod_two_pow (x k : Nat) : x - x % 2 ^ k = 2 ^ k * (x / 2 ^ k) := by
  have := Nat.div_add_mod x (2 ^ k)
  omega

lemma masked_mono (x y k : Nat) (hxy : x ≤ y) (hy : y < U64) (hk : k ≤ 64) :
    x &&& not64 (2 ^ k - 1) ≤ y &&& not64 (2 ^ k - 1) := by
  rw [and_not64_two_pow_sub_one x k (by omega) hk,
    and_not64_two_pow_sub_one y k hy hk, sub_mod_two_pow, sub_mod_two_pow]
  exact Nat.mul_le_mul_left _ (Nat.div_le_div_right hxy)

/-- C6 counterexample: the claim's monotonicity fails as stated.  Raising
`virtual_size` from 0 to 1 shrinks the result (0 means "no clamp"), and
with the non-power-of-two `file_alignment = 3`, raising `size_of_raw_data`
from 1 to 2 also shrinks it. -/
theorem c6_counterexample :
    section_read_size ⟨1, 0, 65536, 0⟩ 1 < section_read_size ⟨0, 0, 65536, 0⟩ 1
    ∧ section_read_size ⟨0, 0, 2, 2⟩ 3 < section_read_size ⟨0, 0, 1, 2⟩ 3 := by
  constructor <;> decide

/-- C6 (amended): `section_read_size` is monotonic non-decreasing in
`size_of_raw_data` when `file_alignment` is a power of two; it is
monotonic non-decreasing in `virtual_size` on `virtual_size ≥ 1` for
every `file_alignment`, with the `virtual_size = 0` case an upper bound
of them all (0 disables the clamp); and it is bounded above by the
4KiB-rounded ceiling of `size_of_raw_data` for every section and every
`file_alignment`. -/
theorem c6_monotone (s : GSec) (d2 v v2 k fa : Nat) (hs : WFSec s)
    (hfa : fa = 2 ^ k) (hfalt : fa < U32) (hd2 : d2 < U32)
    (hd : s.size_of_raw_data ≤ d2) (hv1 : 1 ≤ v) (hvv : v ≤ v2)
    (hv2 : v2 < U32) :
    section_read_size s fa ≤
      section_read_size { s with size_of_raw_data := d2 } fa
    ∧ (∀ fa2, section_read_size { s with virtual_size := v } fa2 ≤
        section_read_size { s with virtual_size := v2 } fa2)
    ∧ (∀ fa2, section_read_size { s with virtual_size := v } fa2 ≤
        section_read_size { s with virtual_size := 0 } fa2)
    ∧ (∀ s2 fa2, section_read_size s2 fa2 ≤ round_size s2.size_of_raw_data)
    := by
  obtain ⟨hsv, hsa, hsd, hsp⟩ := hs
  have hU1 := U32_val
  have hU2 := U64_val
  refine ⟨?_, ?_, ?_, fun s2 fa2 => srs_le_round s2 fa2⟩
  · subst hfa
    have hfa1 : 1 ≤ 2 ^ k := Nat.one_le_two_pow
    have hk : k ≤ 64 := by
      by_contra hc
      push_neg at hc
      have h1 : (2 : Nat) ^ 64 ≤ 2 ^ k := Nat.pow_le_pow_right (by omega)
        (by omega)
      have h2 : (2 : Nat) ^ 64 = 18446744073709551616 := by norm_num
      omega
    rw [section_read_size_eq_plain s (2 ^ k) ⟨hsv, hsa, hsd, hsp⟩ hfa1 hfalt,
      section_read_size_eq_plain { s with size_of_raw_data := d2 } (2 ^ k)
        ⟨hsv, hsa, hd2, hsp⟩ hfa1 hfalt]
    simp only [srs_plain]
    have hmono : (s.pointer_to_raw_data + s.size_of_raw_data + 2 ^ k - 1) &&&
        not64 (2 ^ k - 1) ≤
        (s.pointer_to_raw_data + d2 + 2 ^ k - 1) &&& not64 (2 ^ k - 1) := by
      apply masked_mono _ _ k (by omega) (by omega) hk
    have hround := round_size_mono s.size_of_raw_data d2 hd (by omega)
    have hcore : ((s.pointer_to_raw_data + s.size_of_raw_data + 2 ^ k - 1) &&&
        not64 (2 ^ k - 1)) -
          aligned_pointer_to_raw_data s.pointer_to_raw_data ≤
        ((s.pointer_to_raw_data + d2 + 2 ^ k - 1) &&& not64 (2 ^ k - 1)) -
          aligned_pointer_to_raw_data s.pointer_to_raw_data :=
      Nat.sub_le_sub_right hmono _
    split
    · exact min_le_min hcore hround
    · exact min_le_min (min_le_min hcore hround) (le_refl _)
  · intro fa2
    simp only [section_read_size]
    rw [if_neg (by omega), if_neg (by omega)]
    exact min_le_min (le_refl _)
      (round_size_mono v v2 hvv (by omega))
  · intro fa2
    simp only [section_read_size]
    rw [if_neg (by omega)]
    simp only [if_true]
    exact min_le_left _ _

/-- C6 witness: the amended theorem at a concrete section. -/
theorem c6_monotone_witness :
    section_read_size ⟨0, 0, 100, 7⟩ 16 ≤
      section_read_size ⟨0, 0, 200, 7⟩ 16 :=
  (c6_monotone ⟨0, 0, 100, 7⟩ 200 1 2 4 16 (by decide) (by norm_num)
    (by norm_num [U32]) (by norm_num [U32]) (by norm_num) (by norm_num)
    (by norm_num) (by norm_num [U32])).1

/-! ### C3: abort-freedom of the address resolver -/

lemma cAdd64_eq (a b : Nat) (h : a + b < U64) : cAdd64 a b = some (a + b) := by
  unfold cAdd64
  rw [if_pos h]

lemma cSub_eq (a b : Nat) (h : b ≤ a) : cSub a b = some (a - b) := by
  unfold cSub
  rw [if_pos h]

lemma round_sizeC_eq (size : Nat) (h : size + 0xfff < U64) :
    round_sizeC size = some (round_size size) := by
  unfold round_sizeC round_size
  rw [cAdd64_eq size 0xfff h, wadd64_eq size 0xfff (by omega) h]
  rfl

lemma section_read_sizeC_eq (s : GSec) (fa : Nat) (hs : WFSec s)
    (hfa1 : 1 ≤ fa) (hfa : fa < U32) :
    section_read_sizeC s fa = some (section_read_size s fa) := by
  obtain ⟨hsv, hsa, hsd, hsp⟩ := hs
  have hU1 := U32_val
  have hU2 := U64_val
  have hmge := ptr_le_masked s fa ⟨hsv, hsa, hsd, hsp⟩ hfa1 hfa
  have hale : aligned_pointer_to_raw_data s.pointer_to_raw_data ≤
      s.pointer_to_raw_data := aligned_le _ (by omega)
  rw [section_read_size_eq_plain s fa ⟨hsv, hsa, hsd, hsp⟩ hfa1 hfa]
  unfold section_read_sizeC
  rw [cAdd64_eq s.pointer_to_raw_data s.size_of_raw_data (by omega)]
  simp only [Option.bind_eq_bind, Option.some_bind]
  rw [cAdd64_eq (s.pointer_to_raw_data + s.size_of_raw_data) fa (by omega)]
  simp only [Option.some_bind]
  rw [cSub_eq (s.pointer_to_raw_data + s.size_of_raw_data + fa) 1 (by omega)]
  simp only [Option.some_bind]
  rw [cSub_eq fa 1 (by omega)]
  simp only [Option.some_bind]
  rw [cSub_eq ((s.pointer_to_raw_data + s.size_of_raw_data + fa - 1) &&&
    not64 (fa - 1)) (aligned_pointer_to_raw_data s.pointer_to_raw_data)
    (by omega)]
  simp only [Option.some_bind]
  rw [round_sizeC_eq s.size_of_raw_data (by omega)]
  simp only [Option.some_bind]
  simp only [srs_plain]
  split
  · rfl
  · rw [round_sizeC_eq s.virtual_size (by omega)]
    simp only [Option.some_bind]
    rfl

lemma is_in_sectionC_eq (rva : Nat) (s : GSec) (fa : Nat) (hs : WFSec s)
    (hfa1 : 1 ≤ fa) (hfa : fa < U32) :
    is_in_sectionC rva s fa = some (is_in_section rva s fa) := by
  have hU1 := U32_val
  have hU2 := U64_val
  have hsrs := srs_lt s fa hs.2.2.1
  have hsa := hs.2.1
  unfold is_in_sectionC is_in_section
  rw [section_read_sizeC_eq s fa hs hfa1 hfa]
  simp only [Option.bind_eq_bind, Option.some_bind]
  rw [cAdd64_eq s.virtual_address (section_read_size s fa) (by omega)]
  simp only [Option.some_bind]
  rw [wadd64_eq s.virtual_address (section_read_size s fa) (by omega)
    (by omega)]
  rfl

lemma rva2offsetC_eq (rva : Nat) (s : GSec) (fa : Nat) (hs : WFSec s)
    (hm : is_in_section rva s fa = true) :
    rva2offsetC rva s = some (rva2offset rva s) := by
  obtain ⟨hva, hlt⟩ := (is_in_section_iff rva s fa hs).mp hm
  have hU1 := U32_val
  have hU2 := U64_val
  have hsrs := srs_lt s fa hs.2.2.1
  have hsa := hs.2.1
  have hsp := hs.2.2.2
  have hale : aligned_pointer_to_raw_data s.pointer_to_raw_data ≤
      s.pointer_to_raw_data := aligned_le _ (by omega)
  unfold rva2offsetC rva2offset
  rw [cSub_eq rva s.virtual_address hva]
  simp only [Option.bind_eq_bind, Option.some_bind]
  rw [cAdd64_eq (rva - s.virtual_address)
    (aligned_pointer_to_raw_data s.pointer_to_raw_data) (by omega)]
  rw [wsub64_eq rva s.virtual_address (by omega) hva,
    wadd64_eq (rva - s.virtual_address)
      (aligned_pointer_to_raw_data s.pointer_to_raw_data) (by omega)
      (by omega)]

lemma find_raw_offsetC_eq (rva fa : Nat) (sections : List GSec)
    (hwf : ∀ s ∈ sections, WFSec s) (hfa1 : 1 ≤ fa) (hfa : fa < U32) :
    find_raw_offsetC rva sections fa =
      some (find_raw_offset rva sections fa) := by
  induction sections with
  | nil => rfl
  | cons s rest ih =>
    have hws : WFSec s := hwf s (by simp)
    have hwr : ∀ t ∈ rest, WFSec t := fun t ht => hwf t (by simp [ht])
    unfold find_raw_offsetC find_raw_offset
    rw [is_in_sectionC_eq rva s fa hws hfa1 hfa]
    simp only [Option.bind_eq_bind, Option.some_bind]
    cases hc : is_in_section rva s fa with
    | true => simp [hc]
    | false =>
      simp only [hc, Bool.false_eq_true, if_false]
      exact ih hwr

lemma find_offset_loopC_eq (rva fa : Nat) (sections : List GSec)
    (hwf : ∀ s ∈ sections, WFSec s) (hfa1 : 1 ≤ fa) (hfa : fa < U32) :
    find_offset_loopC rva sections fa =
      some (find_offset_loop rva sections fa) := by
  induction sections with
  | nil => rfl
  | cons s rest ih =>
    have hws : WFSec s := hwf s (by simp)
    have hwr : ∀ t ∈ rest, WFSec t := fun t ht => hwf t (by simp [ht])
    unfold find_offset_loopC find_offset_loop
    rw [is_in_sectionC_eq rva s fa hws hfa1 hfa]
    simp only [Option.bind_eq_bind, Option.some_bind]
    cases hc : is_in_section rva s fa with
    | true =>
      simp only [hc, if_true]
      rw [rva2offsetC_eq rva s fa hws hc]
      rfl
    | false =>
      simp only [hc, Bool.false_eq_true, if_false]
      exact ih hwr

/-- C3 counterexample: with `file_alignment = 0` the plain subtraction
`file_alignment - 1` in `section_read_size` underflows, so under checked
(abort-tracking) semantics every resolver function aborts — the claim
that all the arithmetic is wrapping/saturating and no abort is reachable
is false as stated. -/
theorem c3_counterexample :
    section_read_sizeC ⟨0, 0, 0, 0⟩ 0 = none
    ∧ is_in_sectionC 0 ⟨0, 0, 0, 0⟩ 0 = none
    ∧ find_raw_offsetC 0 [⟨0, 0, 0, 0⟩] 0 = none
    ∧ find_offsetC 0 [⟨0, 0, 0, 0⟩] 0 true = none := by
  refine ⟨by decide, by decide, by decide, by decide⟩

/-- C3 (amended): for every `file_alignment ≥ 1` (and u32-valued section
fields), the resolver functions complete without aborting under checked
semantics and agree with the wrapping value semantics — in particular a
miss is the normal `None`, never a failure; `file_alignment = 0` aborts
(see the counterexample), because `section_read_size` uses plain rather
than wrapping arithmetic. -/
theorem c3_no_panic (rva fa : Nat) (sections : List GSec) (b : Bool)
    (hwf : ∀ s ∈ sections, WFSec s) (hfa1 : 1 ≤ fa) (hfa : fa < U32) :
    (∀ s ∈ sections, section_read_sizeC s fa =
      some (section_read_size s fa))
    ∧ (∀ s ∈ sections, is_in_sectionC rva s fa =
      some (is_in_section rva s fa))
    ∧ find_raw_offsetC rva sections fa =
      some (find_raw_offset rva sections fa)
    ∧ find_offsetC rva sections fa b =
      some (find_offset rva sections fa b) := by
  refine ⟨fun s hs => section_read_sizeC_eq s fa (hwf s hs) hfa1 hfa,
    fun s hs => is_in_sectionC_eq rva s fa (hwf s hs) hfa1 hfa,
    find_raw_offsetC_eq rva fa sections hwf hfa1 hfa, ?_⟩
  cases b with
  | true =>
    unfold find_offsetC find_offset
    rw [if_pos rfl, if_pos rfl]
    exact find_offset_loopC_eq rva fa sections hwf hfa1 hfa
  | false => rfl

/-- C3 witness: a concrete resolver run with `file_alignment = 1`. -/
theorem c3_no_panic_witness :
    find_raw_offsetC 0 [(⟨0, 0, 0, 0⟩ : GSec)] 1 =
      some (find_raw_offset 0 [(⟨0, 0, 0, 0⟩ : GSec)] 1) :=
  (c3_no_panic 0 1 [⟨0, 0, 0, 0⟩] true (by decide) (by decide)
    (by norm_num [U32])).2.2.1

end BiasGoblin
